import Mathlib

/-!
Shallow embedding of `clay.py` (the clar/clay test-harness generator, v0.10.0).

The source scans C test files for functions matching
`^(void\s+(test_<suite>__(\w+))\(\s*void\s*\))\s*\{` (per suite) and
`^(void\s+clay_on_(\w+)\(\s*void\s*\))\s*\{` (global events), after scrubbing
comments and string/char literals with
`//.*?$|/\*.*?\*/|'(?:\\.|[^\\'])*'|"(?:\\.|[^\\"])*"` (DOTALL | MULTILINE),
accumulates a registry (declarations, suites, callback tables, event
overrides) and renders a header and a harness source from templates.

Characters that are special to this file's own scanner are written via
`Char.ofNat`; the Python `\s` and `\w` classes are embedded in their ASCII
reading (the concrete inputs of this development are all ASCII).
-/

/-- Newline character (code 10). -/
def nlChar : Char := Char.ofNat 10

/-- Single-quote character (code 39). -/
def sqChar : Char := Char.ofNat 39

/-- Double-quote character (code 34). -/
def dqChar : Char := Char.ofNat 34

/-- Backslash character (code 92). -/
def bsChar : Char := Char.ofNat 92

/-- Dollar character (code 36), the `string.Template` delimiter. -/
def dollarChar : Char := Char.ofNat 36

/-- Left-brace character (code 123). -/
def lbChar : Char := Char.ofNat 123

/-- Right-brace character (code 125). -/
def rbChar : Char := Char.ofNat 125

/-- Python regex `\s` (ASCII reading): space, tab, newline, vertical tab,
form feed, carriage return. -/
def pySpace (c : Char) : Bool :=
  c.toNat = 32 || c.toNat = 9 || c.toNat = 10 || c.toNat = 11 || c.toNat = 12 || c.toNat = 13

/-- Python regex `\w` (ASCII reading): letters, digits, underscore. -/
def pyWord (c : Char) : Bool :=
  c.isAlphanum || c = '_'

/-- A canonical suite name all of whose characters are word characters; for
such names the literal interpolation of the name into `TEST_FUNC_REGEX`
behaves as a plain literal (no regex metacharacters), which is the envelope
in which this embedding is faithful to the source. -/
def suiteNameOk (s : String) : Bool := s.data.all pyWord

/-! ### The Scrubber (`_skip_comments` and `SKIP_COMMENTS_REGEX`) -/

/-- Consume the body of a `//` line comment: `//.*?$` under MULTILINE stops
(lazily) right before the first newline or at end of input, so the newline
itself is kept.  Returns the remaining input starting at that newline. -/
def dropLineComment : List Char → List Char
  | [] => []
  | c :: rest => if c = nlChar then c :: rest else dropLineComment rest

/-- Consume the body of a `/* ... */` block comment: `/\*.*?\*/` under DOTALL
lazily matches up to and including the first `*/`.  Returns the remainder
after `*/`, or `none` when the comment is unterminated (in which case the
regex alternative fails at this position and the engine advances one char). -/
def dropBlockComment : List Char → Option (List Char)
  | [] => none
  | [_] => none
  | c :: d :: rest =>
    if c = '*' ∧ d = '/' then some rest else dropBlockComment (d :: rest)

/-- Scan a quoted literal body after its opening quote `q`, per
`(?:\\.|[^\\q])*q`: an escape `\\.` takes two characters (DOTALL: any second
character), any character other than backslash and `q` takes one, and a bare
`q` closes the literal.  Returns `(kept, rest)` where `kept` are the consumed
characters including the closing quote; `none` if the literal never closes. -/
def scanQuoted (q : Char) : List Char → Option (List Char × List Char)
  | [] => none
  | c :: rest =>
    if c = q then some ([c], rest)
    else if c = bsChar then
      match rest with
      | [] => none
      | d :: rest2 =>
        match scanQuoted q rest2 with
        | some (kept, r) => some (c :: d :: kept, r)
        | none => none
    else
      match scanQuoted q rest with
      | some (kept, r) => some (c :: kept, r)
      | none => none

/-- One left-to-right `re.sub` pass of `SKIP_COMMENTS_REGEX` with the
`_replacer` of `_skip_comments`: comment matches (starting with `/`) are
replaced by the empty string, quoted-literal matches are kept verbatim, and
a position where no alternative matches is copied through.  The fuel
argument strictly exceeds the number of scanning steps (each step consumes
at least one character), so the `0` case is never reached when called with
`fuel ≥ length`; it returns its input unchanged. -/
def scrubAux : Nat → List Char → List Char
  | 0, l => l
  | _ + 1, [] => []
  | fuel + 1, c :: rest =>
    if c = '/' then
      match rest with
      | [] => [c]
      | d :: rest2 =>
        if d = '/' then scrubAux fuel (dropLineComment rest2)
        else if d = '*' then
          match dropBlockComment rest2 with
          | some r => scrubAux fuel r
          | none => c :: scrubAux fuel rest
        else c :: scrubAux fuel rest
    else if c = sqChar then
      match scanQuoted sqChar rest with
      | some (kept, r) => c :: (kept ++ scrubAux fuel r)
      | none => c :: scrubAux fuel rest
    else if c = dqChar then
      match scanQuoted dqChar rest with
      | some (kept, r) => c :: (kept ++ scrubAux fuel r)
      | none => c :: scrubAux fuel rest
    else c :: scrubAux fuel rest

/-- `_skip_comments`: pure function from raw text to scrubbed text. -/
def scrub (s : String) : String := String.mk (scrubAux s.data.length s.data)

/-! ### The declaration matchers (`TEST_FUNC_REGEX`, `EVENT_CB_REGEX`, `findall`) -/

/-- Match a literal prefix, returning the remainder on success. -/
def stripPre : List Char → List Char → Option (List Char)
  | [], l => some l
  | _ :: _, [] => none
  | p :: ps, c :: cs => if c = p then stripPre ps cs else none

/-- Greedily split leading `\s` characters (`\s*`; `\s+` additionally
requires the first component to be nonempty). -/
def splitSpaces : List Char → List Char × List Char
  | [] => ([], [])
  | c :: rest =>
    if pySpace c then
      let (sp, r) := splitSpaces rest
      (c :: sp, r)
    else ([], c :: rest)

/-- Greedily split leading `\w` characters (`\w+` requires the first
component to be nonempty). -/
def splitWord : List Char → List Char × List Char
  | [] => ([], [])
  | c :: rest =>
    if pyWord c then
      let (w, r) := splitWord rest
      (c :: w, r)
    else ([], c :: rest)

/-- The literal `void`. -/
def vword : List Char := ['v', 'o', 'i', 'd']

/-- Attempt the regex `^(void\s+(PRE\w+)\(\s*void\s*\))\s*\{` at a
line-start position (`PRE` is the literal name prefix: `test_<suite>__` or
`clay_on_`).  Every quantifier here is committed: `\s`/`\w` never match the
literal character that follows them in the pattern, so no backtracking is
possible.  Returns `(declaration, shortName, rest)` where `declaration` is
the verbatim text of capture group 1 and `rest` is the input after the `{`. -/
def tryMatchFunc (pre l : List Char) : Option (List Char × List Char × List Char) :=
  match stripPre vword l with
  | none => none
  | some r1 =>
    let (ws1, r2) := splitSpaces r1
    if ws1.isEmpty then none
    else
      match stripPre pre r2 with
      | none => none
      | some r3 =>
        let (w, r4) := splitWord r3
        if w.isEmpty then none
        else
          match stripPre ['('] r4 with
          | none => none
          | some r5 =>
            let (ws2, r6) := splitSpaces r5
            match stripPre vword r6 with
            | none => none
            | some r7 =>
              let (ws3, r8) := splitSpaces r7
              match stripPre [')'] r8 with
              | none => none
              | some r9 =>
                let (_, r10) := splitSpaces r9
                match stripPre [lbChar] r10 with
                | none => none
                | some r11 =>
                  some (vword ++ ws1 ++ pre ++ w ++ ['('] ++ ws2 ++ vword ++ ws3 ++ [')'], w, r11)

/-- Drop characters up to and including the next newline: the next candidate
`^` position of a MULTILINE scan. -/
def skipLine : List Char → List Char
  | [] => []
  | c :: rest => if c = nlChar then rest else skipLine rest

/-- `re.findall` driver: the pattern is anchored with `^` (MULTILINE), so
matches can only start at the beginning of the input or right after a
newline; scanning resumes after the end of each match (which always ends
with `{`, never at a line start).  Fuel bounds the number of scan steps;
each step consumes at least one character, so `length + 1` never runs out. -/
def findFuncsAux (pre : List Char) : Nat → List Char → List (List Char × List Char)
  | 0, _ => []
  | fuel + 1, l =>
    match tryMatchFunc pre l with
    | some (decl, w, rest) => (decl, w) :: findFuncsAux pre fuel (skipLine rest)
    | none =>
      match l with
      | [] => []
      | _ :: _ => findFuncsAux pre fuel (skipLine l)

/-- All matches of `^(void\s+(PRE\w+)\(\s*void\s*\))\s*\{` in text order,
as (declaration text, `\w+` capture) pairs. -/
def findFuncs (pre l : List Char) : List (List Char × List Char) :=
  findFuncsAux pre (l.length + 1) l

/-- A Test Declaration record, as built in `_process_declarations`. -/
structure TestDecl where
  short_name : String
  declaration : String
  symbol : String
deriving DecidableEq, Repr

/-- The name prefix `test_<suite>__` of `TEST_FUNC_REGEX % suite_name`. -/
def testPre (suite_name : String) : String := "test_" ++ suite_name ++ "__"

/-- All per-suite matches of `TEST_FUNC_REGEX % suite_name` in `contents`,
in text order: short name = capture 3, declaration = capture 1,
symbol = capture 2 (`test_<suite>__<short>`). -/
def findTests (suite_name contents : String) : List TestDecl :=
  (findFuncs (testPre suite_name).data contents.data).map fun m =>
    { short_name := String.mk m.2
      declaration := String.mk m.1
      symbol := testPre suite_name ++ String.mk m.2 }

/-- All matches of `EVENT_CB_REGEX` in `contents`, in text order, as
(declaration, event-name) pairs. -/
def findEvents (contents : String) : List (String × String) :=
  (findFuncs "clay_on_".data contents.data).map fun m => (String.mk m.1, String.mk m.2)

/-! ### The Registry (`ClayTestBuilder` state and `_process_*`) -/

/-- The fixed lifecycle-event enumeration `CLAY_EVENTS`. -/
def CLAY_EVENTS : List String := ["init", "shutdown", "test", "suite"]

/-- A suite record as stored in `self.suite_data`; `suiteInit` and
`suiteCleanup` are the source's `"initialize"` and `"cleanup"` fields. -/
structure Suite where
  name : String
  suiteInit : Option TestDecl
  suiteCleanup : Option TestDecl
  cb_count : Nat
deriving DecidableEq, Repr

/-- The accumulating state of `ClayTestBuilder`: `declarations`,
`suite_names`, `callback_data`, `suite_data` (both dicts modelled as
insertion-ordered association lists with replace-on-rebind, mirroring
Python dict assignment), and `event_callbacks`. -/
structure BuilderState where
  declarations : List String
  suite_names : List String
  callback_data : List (String × List TestDecl)
  suite_data : List (String × Suite)
  event_callbacks : List String
deriving DecidableEq, Repr

/-- The state right after `__init__` sets up its empty containers. -/
def initialState : BuilderState :=
  { declarations := [], suite_names := [], callback_data := [], suite_data := [],
    event_callbacks := [] }

/-- Python dict assignment `d[k] = v`: replace in place if the key is
present, else append. -/
def dictInsert {α : Type} (k : String) (v : α) : List (String × α) → List (String × α)
  | [] => [(k, v)]
  | (k2, v2) :: rest => if k2 = k then (k2, v) :: rest else (k2, v2) :: dictInsert k v rest

/-- Python dict lookup `d[k]` (as an `Option`; the source raises `KeyError`
on a missing key). -/
def dictFind? {α : Type} (k : String) : List (String × α) → Option α
  | [] => none
  | (k2, v) :: rest => if k2 = k then some v else dictFind? k rest

/-- The local accumulators of the `_process_declarations` loop:
`initialize`, `cleanup` and `callbacks`. -/
structure Classified where
  iniHook : Option TestDecl
  cleHook : Option TestDecl
  callbacks : List TestDecl
deriving DecidableEq, Repr

/-- One iteration of the `_process_declarations` loop: an `initialize` or
`cleanup` short name overwrites the respective hook (last match wins), any
other short name is appended to `callbacks`. -/
def classifyStep (acc : Classified) (d : TestDecl) : Classified :=
  if d.short_name = "initialize" then { acc with iniHook := some d }
  else if d.short_name = "cleanup" then { acc with cleHook := some d }
  else { acc with callbacks := acc.callbacks ++ [d] }

/-- The whole `_process_declarations` match loop. -/
def classifyDecls (ms : List TestDecl) : Classified :=
  ms.foldl classifyStep { iniHook := none, cleHook := none, callbacks := [] }

/-- One iteration of the `_process_events` loop: an event outside
`CLAY_EVENTS` is skipped entirely; a recognized one appends its declaration
to `declarations` and its name to `event_callbacks`. -/
def processEventsStep (st : BuilderState) (m : String × String) : BuilderState :=
  if m.2 ∈ CLAY_EVENTS then
    { st with declarations := st.declarations ++ [m.1],
              event_callbacks := st.event_callbacks ++ [m.2] }
  else st

/-- `_process_events`: fold the event matches of (already scrubbed)
`contents` into the state. -/
def processEvents (st : BuilderState) (contents : String) : BuilderState :=
  (findEvents contents).foldl processEventsStep st

/-- Declaration text of an optional hook, as appended by
`_process_declarations`. -/
def optDecl : Option TestDecl → List String
  | some d => [d.declaration]
  | none => []

/-- Lexicographic-by-code-point comparison of character lists, the order
Python uses to compare strings (`<=`): the empty list is below everything,
and lists are compared pointwise by code point. -/
def listLeb : List Char → List Char → Bool
  | [], _ => true
  | _ :: _, [] => false
  | a :: as, b :: bs =>
    if a.toNat < b.toNat then true
    else if b.toNat < a.toNat then false
    else listLeb as bs

/-- Python `<=` on strings (lexicographic by code point), as a Boolean. -/
def strLeb (a b : String) : Bool := listLeb a.data b.data

/-- Python `<=` on strings, as a proposition. -/
def strLe (a b : String) : Prop := strLeb a b = true

instance : DecidableRel strLe :=
  fun a b => inferInstanceAs (Decidable (strLeb a b = true))

/-- Sort key order of `callbacks.sort(key=lambda x: x['short_name'])`. -/
def shortNameLe (a b : TestDecl) : Prop := strLe a.short_name b.short_name

instance : DecidableRel shortNameLe :=
  fun a b => inferInstanceAs (Decidable (strLeb a.short_name b.short_name = true))

/-- The stable sort applied to a suite's ordinary callbacks
(`callbacks.sort(key=lambda x: x['short_name'])`). -/
def sortByShortName (l : List TestDecl) : List TestDecl := List.insertionSort shortNameLe l

/-- `_process_declarations`: match the per-suite pattern against (already
scrubbed) `contents`; if no ordinary callbacks were found, return the state
unchanged (no suite is registered); otherwise append the hook and callback
declarations, sort the callbacks by short name, and register the suite. -/
def processDeclarations (st : BuilderState) (suite_name contents : String) : BuilderState :=
  let cl := classifyDecls (findTests suite_name contents)
  if cl.callbacks.isEmpty then st
  else
    { st with
      declarations := st.declarations
        ++ optDecl cl.iniHook ++ optDecl cl.cleHook
        ++ cl.callbacks.map TestDecl.declaration,
      callback_data := dictInsert suite_name (sortByShortName cl.callbacks) st.callback_data,
      suite_data := dictInsert suite_name
        { name := suite_name, suiteInit := cl.iniHook, suiteCleanup := cl.cleHook,
          cb_count := cl.callbacks.length } st.suite_data,
      suite_names := st.suite_names ++ [suite_name] }

/-- `_process_test_file`: scrub, then process events, then process the
per-suite declarations. -/
def processTestFile (st : BuilderState) (suite_name contents : String) : BuilderState :=
  let scrubbed := scrub contents
  processDeclarations (processEvents st scrubbed) suite_name scrubbed

/-- The scan phase of `__init__`: fold every Source Unit (canonical name,
raw text) into the registry, in traversal order. -/
def processAll (units : List (String × String)) : BuilderState :=
  units.foldl (fun st u => processTestFile st u.1 u.2) initialState

/-- Errors of the checked build.  When zero suites were found the source
executes `raise RuntimeError('No tests found under "%s"' % folder_name)`,
but `folder_name` is not defined anywhere in the program (the constructor
parameter is `path`), so evaluating the format expression raises a Python
`NameError` that names the missing variable — the intended message carrying
the scanned root is never constructed. -/
inductive BuildError where
  | nameError (missing : String)
deriving DecidableEq, Repr

/-- `ClayTestBuilder.__init__` after the scan: fail when `suite_data` is
empty (see `BuildError.nameError`: the error raised is a `NameError` about
`folder_name` and is independent of the scanned root `_path`). -/
def buildChecked (_path : String) (units : List (String × String)) :
    Except BuildError BuilderState :=
  let st := processAll units
  if st.suite_data.isEmpty then Except.error (BuildError.nameError "folder_name")
  else Except.ok st

/-! ### The Renderer (`_render_*`) -/

/-- Python `str.replace` with an empty pattern: the replacement is inserted
at every position. -/
def pyReplaceEmpty (repl : List Char) : List Char → List Char
  | [] => repl
  | c :: rest => repl ++ c :: pyReplaceEmpty repl rest

/-- Python `str.replace` scan for a nonempty pattern: left-to-right,
non-overlapping.  Fuel as in `scrubAux`. -/
def pyReplaceAux (pat repl : List Char) : Nat → List Char → List Char
  | 0, l => l
  | _ + 1, [] => []
  | fuel + 1, c :: rest =>
    match stripPre pat (c :: rest) with
    | some r => repl ++ pyReplaceAux pat repl fuel r
    | none => c :: pyReplaceAux pat repl fuel rest

/-- Python `str.replace`. -/
def pyReplace (s pat repl : String) : String :=
  if pat.data.isEmpty then String.mk (pyReplaceEmpty repl.data s.data)
  else String.mk (pyReplaceAux pat.data repl.data s.data.length s.data)

/-- `_render_cb`: `'{"%s", &%s}' % (short_name, symbol)`. -/
def render_cb (cb : TestDecl) : String :=
  "\x7b\"" ++ cb.short_name ++ "\", &" ++ cb.symbol ++ "\x7d"

/-- `_render_suite`: the inline suite-descriptor template with its
placeholders substituted and the surrounding whitespace stripped, exactly as
`Template(...).substitute(...).strip()` produces it. -/
def render_suite (suite : Suite) : String :=
  let iniStr := match suite.suiteInit with
    | some cb => render_cb cb
    | none => "\x7bNULL, NULL\x7d"
  let cleStr := match suite.suiteCleanup with
    | some cb => render_cb cb
    | none => "\x7bNULL, NULL\x7d"
  "\x7b\n        \"" ++ pyReplace suite.name "_" "::" ++ "\",\n        "
    ++ iniStr ++ ",\n        " ++ cleStr ++ ",\n        "
    ++ "_clay_cb_" ++ suite.name ++ ", " ++ toString suite.cb_count ++ "\n    \x7d"

/-- The rendered entries of a suite's callback array: `initialize` and
`cleanup` are filtered out, every other callback is rendered by
`_render_cb`. -/
def render_callback_entries (callbacks : List TestDecl) : List String :=
  (callbacks.filter fun cb =>
    decide (cb.short_name ≠ "initialize" ∧ cb.short_name ≠ "cleanup")).map render_cb

/-- `_render_callbacks`: the inline array template substituted and stripped;
entries joined with `",\n\t"`. -/
def render_callbacks (suite_name : String) (callbacks : List TestDecl) : String :=
  "static const struct clay_func _clay_cb_" ++ suite_name ++ "[] = \x7b\n    "
    ++ String.intercalate ",\n\t" (render_callback_entries callbacks) ++ "\n\x7d;"

/-- One no-op override line, `"#define clay_on_%s() /* nop */" % event`. -/
def nopLine (event : String) : String :=
  "#define clay_on_" ++ event ++ "() /* nop */"

/-- The override lines of `_render_event_overrides`: one no-op define per
`CLAY_EVENTS` entry that is absent from `event_callbacks`. -/
def overrideLines (event_callbacks : List String) : List String :=
  (CLAY_EVENTS.filter fun e => decide (e ∉ event_callbacks)).map nopLine

/-- `_render_event_overrides`: the override lines joined with newlines. -/
def render_event_overrides (event_callbacks : List String) : String :=
  String.intercalate "\n" (overrideLines event_callbacks)

/-- Python `sorted` on strings: lexicographic by code point (stable;
`insertionSort` with a non-strict order is stable as well). -/
def sortStrings (l : List String) : List String := List.insertionSort strLe l

/-- The extern re-declaration lines of `_render_header`:
`"extern %s;" % decl for decl in sorted(self.declarations)`. -/
def externLines (declarations : List String) : List String :=
  (sortStrings declarations).map fun decl => "extern " ++ decl ++ ";"

/-- The `extern_declarations` template value of `_render_header`. -/
def extern_declarations (declarations : List String) : String :=
  String.intercalate "\n" (externLines declarations)

/-- First character of a `string.Template` identifier (`(?a:[_a-z])`,
IGNORECASE). -/
def isIdStart (c : Char) : Bool := c.isAlpha || c = '_'

/-- Split a leading `string.Template` identifier `[_a-z][_a-z0-9]*`
(IGNORECASE, ASCII); the continuation class equals `pyWord`. -/
def splitIdent : List Char → List Char × List Char
  | [] => ([], [])
  | c :: rest =>
    if isIdStart c then
      let (w, r) := splitWord rest
      (c :: w, r)
    else ([], c :: rest)

/-- String lookup in the substitution mapping. -/
def lookupBinding (k : String) : List (String × String) → Option String
  | [] => none
  | (k2, v) :: rest => if k2 = k then some v else lookupBinding k rest

/-- One scan of `string.Template.substitute`: `$$` yields `$`, `${name}` and
`$name` are replaced by the mapped value.  The source only ever substitutes
templates whose placeholders are all bound; an unbound or malformed
placeholder (a `KeyError`/`ValueError` in Python) is kept as literal text
here.  Fuel as in `scrubAux`. -/
def substAux (m : List (String × String)) : Nat → List Char → List Char
  | 0, l => l
  | _ + 1, [] => []
  | fuel + 1, c :: rest =>
    if c = dollarChar then
      match rest with
      | [] => [c]
      | d :: r2 =>
        if d = dollarChar then d :: substAux m fuel r2
        else if d = lbChar then
          match splitIdent r2 with
          | ([], _) => c :: substAux m fuel rest
          | (w, r3) =>
            match r3 with
            | [] => c :: substAux m fuel rest
            | e :: r4 =>
              if e = rbChar then
                match lookupBinding (String.mk w) m with
                | some v => v.data ++ substAux m fuel r4
                | none => c :: d :: (w ++ e :: substAux m fuel r4)
              else c :: substAux m fuel rest
        else
          match splitIdent (d :: r2) with
          | ([], _) => c :: substAux m fuel rest
          | (w, r3) =>
            match lookupBinding (String.mk w) m with
            | some v => v.data ++ substAux m fuel r3
            | none => c :: (w ++ substAux m fuel r3)
    else c :: substAux m fuel rest

/-- `Template(tpl).substitute(m)`. -/
def substituteTemplate (tpl : String) (m : List (String × String)) : String :=
  String.mk (substAux m tpl.data.length tpl.data)

/-- `_render_header`: substitute the sorted extern block into the header
template fetched from the Asset Store (here a parameter, since the embedded
asset bundle is opaque compressed data). -/
def render_header (tpl : String) (st : BuilderState) : String :=
  substituteTemplate tpl [("extern_declarations", extern_declarations st.declarations)]

/-- The aggregate callback count of `_render_main`:
`sum(len(cbs) for cbs in self.callback_data.values())`. -/
def callback_count (st : BuilderState) : Nat :=
  (st.callback_data.map fun p => p.2.length).sum

/-- `_render_main`: suites rendered in sorted-name order, callback arrays
likewise, aggregate counts and event overrides substituted into the harness
template.  The suite-descriptor text `self._render_suite(self.suite_data[s])`
of one sorted suite name: a missing dict key raises `KeyError` in the source
and is unreachable for scanned states; it is rendered as a marker string
here. -/
def render_suite_entry (suite_data : List (String × Suite)) (s : String) : String :=
  match dictFind? s suite_data with
  | some su => render_suite su
  | none => "KeyError: " ++ s

/-- The callback-array text `self._render_callbacks(s, self.callback_data[s])`
of one sorted suite name (`KeyError` marker as in `render_suite_entry`). -/
def render_callbacks_entry (callback_data : List (String × List TestDecl)) (s : String) :
    String :=
  match dictFind? s callback_data with
  | some cbs => render_callbacks s cbs
  | none => "KeyError: " ++ s

/-- `_render_main`: suites rendered in sorted-name order, callback arrays
likewise, aggregate counts and event overrides substituted into the harness
template (a parameter, as in `render_header`; `modules` stands for the
concatenated support-module texts of `_get_modules`). -/
def render_main (tpl modules : String) (st : BuilderState) : String :=
  let names := sortStrings st.suite_names
  let suite_strs := names.map (render_suite_entry st.suite_data)
  let callback_strs := names.map (render_callbacks_entry st.callback_data)
  substituteTemplate tpl
    [("clay_modules", modules),
     ("clay_callbacks", String.intercalate "\n" callback_strs),
     ("clay_suites", String.intercalate ",\n\t" suite_strs),
     ("clay_suite_count", toString suite_strs.length),
     ("clay_callback_count", toString (callback_count st)),
     ("clay_event_overrides", render_event_overrides st.event_callbacks)]

/-! ### Derived views used by the verification -/

/-- Number of newline characters (Python line count minus one). -/
def countNl (l : List Char) : Nat := l.countP fun c => decide (c = nlChar)

/-- Head-character test. -/
def headIs (x : Char) : List Char → Bool
  | [] => false
  | c :: _ => c = x

/-- Whether the text contains a `/*` block-comment opener anywhere. -/
def hasBlockStart : List Char → Bool
  | [] => false
  | c :: rest => (c = '/' && headIs '*' rest) || hasBlockStart rest

/-- The event matches of a (scrubbed) Source Unit text that carry a
recognized lifecycle event, in text order. -/
def eventContrib (contents : String) : List (String × String) :=
  (findEvents contents).filter fun m => decide (m.2 ∈ CLAY_EVENTS)

/-- Event names a Source Unit appends to `event_callbacks`. -/
def unitEvents (u : String × String) : List String :=
  (eventContrib (scrub u.2)).map Prod.snd

/-- Event declaration texts a Source Unit appends to `declarations`. -/
def unitEventDecls (u : String × String) : List String :=
  (eventContrib (scrub u.2)).map Prod.fst

/-- The classified per-suite matches of a Source Unit. -/
def unitClassified (u : String × String) : Classified :=
  classifyDecls (findTests u.1 (scrub u.2))

/-- Whether a Source Unit registers a Suite (it found at least one ordinary
Test Declaration). -/
def registersUnit (u : String × String) : Bool :=
  !(unitClassified u).callbacks.isEmpty

/-- Test-declaration texts a Source Unit appends to `declarations`
(hooks first, then the ordinary callbacks in match order); empty when the
unit registers no Suite. -/
def unitTestDecls (u : String × String) : List String :=
  if registersUnit u then
    optDecl (unitClassified u).iniHook ++ optDecl (unitClassified u).cleHook
      ++ (unitClassified u).callbacks.map TestDecl.declaration
  else []

/-- All declaration texts a Source Unit appends to `declarations`. -/
def unitDecls (u : String × String) : List String := unitEventDecls u ++ unitTestDecls u

/-- Suite names a Source Unit appends to `suite_names`. -/
def unitNames (u : String × String) : List String :=
  if registersUnit u then [u.1] else []

/-- The sorted callback table a Source Unit stores in `callback_data`. -/
def unitCbs (u : String × String) : List TestDecl :=
  sortByShortName (unitClassified u).callbacks

/-- The suite record a Source Unit stores in `suite_data`. -/
def unitSuite (u : String × String) : Suite :=
  { name := u.1, suiteInit := (unitClassified u).iniHook,
    suiteCleanup := (unitClassified u).cleHook,
    cb_count := (unitClassified u).callbacks.length }

/-- The `callback_data` binding contributed by a Source Unit, if any. -/
def cbPair (u : String × String) : Option (String × List TestDecl) :=
  if registersUnit u then some (u.1, unitCbs u) else none

/-- The `suite_data` binding contributed by a Source Unit, if any. -/
def sdPair (u : String × String) : Option (String × Suite) :=
  if registersUnit u then some (u.1, unitSuite u) else none

/-- Folding one Source Unit's optional dict binding into a dict. -/
def dictStep {α : Type} (g : String × String → Option (String × α))
    (d : List (String × α)) (u : String × String) : List (String × α) :=
  match g u with
  | some p => dictInsert p.1 p.2 d
  | none => d

/-! ### Helper lemmas -/

theorem wrap_injective (pre suf : String) :
    Function.Injective (fun d : String => pre ++ d ++ suf) := by
  intro a b h
  have h2 : pre.data ++ (a.data ++ suf.data) = pre.data ++ (b.data ++ suf.data) := by
    have h1 := congrArg String.data h
    simpa [String.data_append, List.append_assoc] using h1
  have h3 : a.data ++ suf.data = b.data ++ suf.data :=
    List.append_inj_right h2 rfl
  exact String.ext (List.append_inj' h3 rfl).1

theorem dictFind_insert {α : Type} (k k' : String) (v : α) (d : List (String × α)) :
    dictFind? k' (dictInsert k v d) = if k = k' then some v else dictFind? k' d := by
  induction d with
  | nil => by_cases h : k = k' <;> simp [dictInsert, dictFind?, h]
  | cons p rest ih =>
    obtain ⟨k2, v2⟩ := p
    by_cases h2 : k2 = k
    · subst h2
      by_cases h : k2 = k' <;> simp [dictInsert, dictFind?, h]
    · simp only [dictInsert, if_neg h2]
      by_cases h : k2 = k'
      · subst h
        have hk : ¬ k = k2 := fun hh => h2 hh.symm
        simp [dictFind?, hk]
      · simp [dictFind?, h, ih]

theorem mem_dictInsert {α : Type} (p : String × α) (k : String) (v : α)
    (d : List (String × α)) (hp : p ∈ dictInsert k v d) : p.2 = v ∨ p ∈ d := by
  induction d with
  | nil => simp [dictInsert] at hp; simp [hp]
  | cons q rest ih =>
    obtain ⟨k2, v2⟩ := q
    by_cases h2 : k2 = k
    · simp [dictInsert, h2] at hp
      rcases hp with hp | hp
      · left; simp [hp]
      · right; simp [hp]
    · simp [dictInsert, h2] at hp
      rcases hp with hp | hp
      · right; simp [hp]
      · rcases ih hp with h | h
        · left; exact h
        · right; simp [h]

theorem dictInsert_notMem {α : Type} (k : String) (v : α) (d : List (String × α))
    (h : k ∉ d.map Prod.fst) : dictInsert k v d = d ++ [(k, v)] := by
  induction d with
  | nil => simp [dictInsert]
  | cons p rest ih =>
    obtain ⟨k2, v2⟩ := p
    have h1 : ¬ k2 = k := by
      intro hh; apply h; simp [hh]
    have h2 : k ∉ rest.map Prod.fst := by
      intro hh; apply h; simp [hh]
    simp [dictInsert, h1, ih h2]

theorem classify_callbacks_of_hooks (ms : List TestDecl) :
    ∀ acc : Classified,
      (∀ m ∈ ms, m.short_name = "initialize" ∨ m.short_name = "cleanup") →
      (ms.foldl classifyStep acc).callbacks = acc.callbacks := by
  induction ms with
  | nil => intro acc _; rfl
  | cons m rest ih =>
    intro acc h
    have hm := h m (by simp)
    have hrest : ∀ m' ∈ rest, m'.short_name = "initialize" ∨ m'.short_name = "cleanup" :=
      fun m' hm' => h m' (by simp [hm'])
    rcases hm with hm | hm <;>
      simp [List.foldl_cons, classifyStep, hm, ih _ hrest]

theorem classify_callbacks_not_hooks (ms : List TestDecl) :
    ∀ acc : Classified,
      (∀ cb ∈ acc.callbacks, cb.short_name ≠ "initialize" ∧ cb.short_name ≠ "cleanup") →
      ∀ cb ∈ (ms.foldl classifyStep acc).callbacks,
        cb.short_name ≠ "initialize" ∧ cb.short_name ≠ "cleanup" := by
  induction ms with
  | nil => intro acc hacc; simpa using hacc
  | cons m rest ih =>
    intro acc hacc
    simp only [List.foldl_cons]
    by_cases h1 : m.short_name = "initialize"
    · exact ih _ (by simpa [classifyStep, h1] using hacc)
    · by_cases h2 : m.short_name = "cleanup"
      · exact ih _ (by simpa [classifyStep, h1, h2] using hacc)
      · refine ih _ ?_
        intro cb hcb
        simp [classifyStep, h1, h2] at hcb
        rcases hcb with hcb | hcb
        · exact hacc cb hcb
        · subst hcb; exact ⟨h1, h2⟩

theorem char_toNat_inj {a b : Char} (h : a.toNat = b.toNat) : a = b := by
  rw [← Char.ofNat_toNat a, ← Char.ofNat_toNat b, h]

theorem listLeb_total (a : List Char) : ∀ b, listLeb a b = true ∨ listLeb b a = true := by
  induction a with
  | nil => intro b; left; rfl
  | cons x xs ih =>
    intro b
    cases b with
    | nil => right; rfl
    | cons y ys =>
      by_cases h1 : x.toNat < y.toNat
      · left; simp [listLeb, h1]
      · by_cases h2 : y.toNat < x.toNat
        · right; simp [listLeb, h2]
        · have h3 : ¬ y.toNat < x.toNat := h2
          rcases ih ys with h | h
          · left; simp [listLeb, h1, h2, h]
          · right; simp [listLeb, h1, h3, h]

theorem listLeb_trans (a : List Char) :
    ∀ b c, listLeb a b = true → listLeb b c = true → listLeb a c = true := by
  induction a with
  | nil => intro b c _ _; rfl
  | cons x xs ih =>
    intro b c hab hbc
    cases b with
    | nil => simp [listLeb] at hab
    | cons y ys =>
      cases c with
      | nil => simp [listLeb] at hbc
      | cons z zs =>
        simp only [listLeb] at hab hbc ⊢
        by_cases h1 : x.toNat < y.toNat
        · by_cases h2 : y.toNat < z.toNat
          · simp [show x.toNat < z.toNat by omega]
          · by_cases h3 : z.toNat < y.toNat
            · simp [h2, h3] at hbc
            · simp [show x.toNat < z.toNat by omega]
        · by_cases h2 : y.toNat < x.toNat
          · simp [h1, h2] at hab
          · by_cases h3 : y.toNat < z.toNat
            · simp [show x.toNat < z.toNat by omega]
            · by_cases h4 : z.toNat < y.toNat
              · simp [h3, h4] at hbc
              · have h5 : ¬ x.toNat < z.toNat := by omega
                have h6 : ¬ z.toNat < x.toNat := by omega
                simp [h1, h2] at hab
                simp [h3, h4] at hbc
                simp [h5, h6]
                exact ih ys zs hab hbc

theorem listLeb_antisymm (a : List Char) :
    ∀ b, listLeb a b = true → listLeb b a = true → a = b := by
  induction a with
  | nil =>
    intro b _ hba
    cases b with
    | nil => rfl
    | cons y ys => simp [listLeb] at hba
  | cons x xs ih =>
    intro b hab hba
    cases b with
    | nil => simp [listLeb] at hab
    | cons y ys =>
      simp only [listLeb] at hab hba
      by_cases h1 : x.toNat < y.toNat
      · have h2 : ¬ y.toNat < x.toNat := Nat.lt_asymm h1
        simp [h1, h2] at hba
      · by_cases h2 : y.toNat < x.toNat
        · simp [h1, h2] at hab
        · have hx : x = y := char_toNat_inj (by omega)
          subst hx
          simp [h1, h2] at hab hba
          rw [ih ys hab hba]

theorem strLe_total (a b : String) : strLe a b ∨ strLe b a := listLeb_total a.data b.data

theorem strLe_trans {a b c : String} (h1 : strLe a b) (h2 : strLe b c) : strLe a c :=
  listLeb_trans a.data b.data c.data h1 h2

theorem strLe_antisymm {a b : String} (h1 : strLe a b) (h2 : strLe b a) : a = b :=
  String.ext (listLeb_antisymm a.data b.data h1 h2)

theorem shortNameLe_total (a b : TestDecl) : shortNameLe a b ∨ shortNameLe b a :=
  strLe_total a.short_name b.short_name

theorem shortNameLe_trans {a b c : TestDecl} (h1 : shortNameLe a b) (h2 : shortNameLe b c) :
    shortNameLe a c := strLe_trans h1 h2

theorem foldl_processEventsStep (ms : List (String × String)) :
    ∀ st : BuilderState,
      ms.foldl processEventsStep st =
        { st with
          declarations :=
            st.declarations ++ (ms.filter fun m => decide (m.2 ∈ CLAY_EVENTS)).map Prod.fst,
          event_callbacks :=
            st.event_callbacks ++ (ms.filter fun m => decide (m.2 ∈ CLAY_EVENTS)).map Prod.snd } := by
  induction ms with
  | nil => intro st; simp
  | cons m rest ih =>
    intro st
    rw [List.foldl_cons, ih]
    by_cases h : m.2 ∈ CLAY_EVENTS <;>
      simp [processEventsStep, h, List.append_assoc]

theorem processEvents_eq (st : BuilderState) (c : String) :
    processEvents st c =
      { st with declarations := st.declarations ++ (eventContrib c).map Prod.fst,
                event_callbacks := st.event_callbacks ++ (eventContrib c).map Prod.snd } := by
  unfold processEvents eventContrib
  exact foldl_processEventsStep (findEvents c) st

theorem processDeclarations_skip (st : BuilderState) (n c : String)
    (h : (classifyDecls (findTests n c)).callbacks.isEmpty = true) :
    processDeclarations st n c = st := by
  simp [processDeclarations, h]

theorem processDeclarations_register (st : BuilderState) (n c : String)
    (h : (classifyDecls (findTests n c)).callbacks.isEmpty = false) :
    processDeclarations st n c =
      { st with
        declarations := st.declarations
          ++ optDecl (classifyDecls (findTests n c)).iniHook
          ++ optDecl (classifyDecls (findTests n c)).cleHook
          ++ (classifyDecls (findTests n c)).callbacks.map TestDecl.declaration,
        callback_data :=
          dictInsert n (sortByShortName (classifyDecls (findTests n c)).callbacks) st.callback_data,
        suite_data := dictInsert n
          { name := n, suiteInit := (classifyDecls (findTests n c)).iniHook,
            suiteCleanup := (classifyDecls (findTests n c)).cleHook,
            cb_count := (classifyDecls (findTests n c)).callbacks.length } st.suite_data,
        suite_names := st.suite_names ++ [n] } := by
  simp [processDeclarations, h]

theorem processTestFile_eq (st : BuilderState) (u : String × String) :
    processTestFile st u.1 u.2 =
      { declarations := st.declarations ++ unitDecls u,
        suite_names := st.suite_names ++ unitNames u,
        callback_data := dictStep cbPair st.callback_data u,
        suite_data := dictStep sdPair st.suite_data u,
        event_callbacks := st.event_callbacks ++ unitEvents u } := by
  show processDeclarations (processEvents st (scrub u.2)) u.1 (scrub u.2) = _
  rw [processEvents_eq]
  by_cases h : registersUnit u
  · have hne : (classifyDecls (findTests u.1 (scrub u.2))).callbacks.isEmpty = false := by
      have := h
      unfold registersUnit unitClassified at this
      simpa using this
    rw [processDeclarations_register _ _ _ hne]
    simp [unitDecls, unitTestDecls, unitNames, dictStep, cbPair, sdPair, unitCbs, unitSuite,
      unitEvents, unitEventDecls, unitClassified, h, List.append_assoc]
  · have hne : (classifyDecls (findTests u.1 (scrub u.2))).callbacks.isEmpty = true := by
      have := h
      unfold registersUnit unitClassified at this
      simpa using this
    rw [processDeclarations_skip _ _ _ hne]
    simp [unitDecls, unitTestDecls, unitNames, dictStep, cbPair, sdPair,
      unitEvents, unitEventDecls, h]

theorem processAll_foldl (units : List (String × String)) :
    ∀ st : BuilderState,
      units.foldl (fun st u => processTestFile st u.1 u.2) st =
        { declarations := st.declarations ++ (units.map unitDecls).flatten,
          suite_names := st.suite_names ++ (units.map unitNames).flatten,
          callback_data := units.foldl (dictStep cbPair) st.callback_data,
          suite_data := units.foldl (dictStep sdPair) st.suite_data,
          event_callbacks := st.event_callbacks ++ (units.map unitEvents).flatten } := by
  induction units with
  | nil => intro st; simp
  | cons u rest ih =>
    intro st
    rw [List.foldl_cons, processTestFile_eq, ih]
    simp [List.append_assoc]

theorem processAll_eq (units : List (String × String)) :
    processAll units =
      { declarations := (units.map unitDecls).flatten,
        suite_names := (units.map unitNames).flatten,
        callback_data := units.foldl (dictStep cbPair) [],
        suite_data := units.foldl (dictStep sdPair) [],
        event_callbacks := (units.map unitEvents).flatten } := by
  unfold processAll
  rw [processAll_foldl]
  simp [initialState]

theorem foldl_dictInsert_eq {α : Type} (g : String × String → Option (String × α))
    (hg : ∀ u p, g u = some p → p.1 = u.1) :
    ∀ (units : List (String × String)) (d : List (String × α)),
      (units.map Prod.fst).Nodup →
      (∀ u ∈ units, u.1 ∉ d.map Prod.fst) →
      units.foldl (dictStep g) d = d ++ units.filterMap g := by
  intro units
  induction units with
  | nil => intro d _ _; simp
  | cons u rest ih =>
    intro d hnd hd
    rw [List.map_cons] at hnd
    have hnd1 : u.1 ∉ rest.map Prod.fst := (List.nodup_cons.mp hnd).1
    have hnd2 : (rest.map Prod.fst).Nodup := (List.nodup_cons.mp hnd).2
    rw [List.foldl_cons]
    cases hgu : g u with
    | none =>
      rw [List.filterMap_cons_none hgu]
      simp only [dictStep, hgu]
      exact ih d hnd2 (fun u' hu' => hd u' (by simp [hu']))
    | some p =>
      have hp1 : p.1 = u.1 := hg u p hgu
      have hku : p.1 ∉ d.map Prod.fst := by rw [hp1]; exact hd u (by simp)
      have hcond : ∀ u' ∈ rest, u'.1 ∉ (d ++ [(p.1, p.2)]).map Prod.fst := by
        intro u' hu'
        simp only [List.map_append, List.mem_append]
        rintro (hin | hin)
        · exact hd u' (by simp [hu']) hin
        · simp [hp1] at hin
          exact hnd1 (hin ▸ List.mem_map_of_mem Prod.fst hu')
      rw [List.filterMap_cons_some hgu]
      simp only [dictStep, hgu]
      rw [dictInsert_notMem _ _ _ hku, ih (d ++ [(p.1, p.2)]) hnd2 hcond]
      simp

theorem map_fst_filterMap_sublist {α : Type} (g : String × String → Option (String × α))
    (hg : ∀ u p, g u = some p → p.1 = u.1) :
    ∀ units : List (String × String),
      ((units.filterMap g).map Prod.fst).Sublist (units.map Prod.fst) := by
  intro units
  induction units with
  | nil => simp
  | cons u rest ih =>
    cases hgu : g u with
    | none =>
      rw [List.filterMap_cons_none hgu]
      exact ih.cons _
    | some p =>
      rw [List.filterMap_cons_some hgu]
      simpa [hg u p hgu] using ih.cons₂ u.1

theorem dictFind_eq_of_perm {α : Type} {l₁ l₂ : List (String × α)} (h : l₁.Perm l₂) :
    (l₁.map Prod.fst).Nodup → ∀ k, dictFind? k l₁ = dictFind? k l₂ := by
  induction h with
  | nil => intro _ k; rfl
  | cons x h ih =>
    intro hn k
    obtain ⟨k2, v2⟩ := x
    simp only [List.map_cons, List.nodup_cons] at hn
    by_cases hk : k2 = k <;> simp [dictFind?, hk, ih hn.2 k]
  | swap x y l =>
    intro hn k
    obtain ⟨k2, v2⟩ := x
    obtain ⟨k3, v3⟩ := y
    have hne : k3 ≠ k2 := by
      simp [List.nodup_cons] at hn
      exact fun hh => hn.1.1 hh
    by_cases h2 : k2 = k
    · subst h2
      simp [dictFind?, hne]
    · by_cases h3 : k3 = k <;> simp [dictFind?, h2, h3]
  | trans h₁ h₂ ih₁ ih₂ =>
    intro hn k
    have hn₂ := (h₁.map Prod.fst).nodup hn
    rw [ih₁ hn k, ih₂ hn₂ k]

theorem sortStrings_eq_of_perm {l₁ l₂ : List String} (h : l₁.Perm l₂) :
    sortStrings l₁ = sortStrings l₂ := by
  haveI : IsTotal String strLe := ⟨strLe_total⟩
  haveI : IsTrans String strLe := ⟨fun _ _ _ h1 h2 => strLe_trans h1 h2⟩
  haveI : IsAntisymm String strLe := ⟨fun _ _ h1 h2 => strLe_antisymm h1 h2⟩
  exact List.eq_of_perm_of_sorted
    ((List.perm_insertionSort strLe l₁).trans (h.trans (List.perm_insertionSort strLe l₂).symm))
    (List.sorted_insertionSort strLe l₁)
    (List.sorted_insertionSort strLe l₂)

theorem overrideLines_congr {ec₁ ec₂ : List String} (h : ∀ e, e ∈ ec₁ ↔ e ∈ ec₂) :
    overrideLines ec₁ = overrideLines ec₂ := by
  unfold overrideLines
  congr 1
  apply List.filter_congr
  intro e _
  simp [h e]

theorem cbPair_key (u : String × String) (p : String × List TestDecl)
    (h : cbPair u = some p) : p.1 = u.1 := by
  unfold cbPair at h
  by_cases hr : registersUnit u
  · simp [hr] at h
    simp [← h]
  · simp [hr] at h

theorem sdPair_key (u : String × String) (p : String × Suite)
    (h : sdPair u = some p) : p.1 = u.1 := by
  unfold sdPair at h
  by_cases hr : registersUnit u
  · simp [hr] at h
    simp [← h]
  · simp [hr] at h

theorem render_main_congr (tpl mods : String) {st₁ st₂ : BuilderState}
    (h1 : sortStrings st₁.suite_names = sortStrings st₂.suite_names)
    (h2 : ∀ k, dictFind? k st₁.suite_data = dictFind? k st₂.suite_data)
    (h3 : ∀ k, dictFind? k st₁.callback_data = dictFind? k st₂.callback_data)
    (h4 : callback_count st₁ = callback_count st₂)
    (h5 : ∀ e, e ∈ st₁.event_callbacks ↔ e ∈ st₂.event_callbacks) :
    render_main tpl mods st₁ = render_main tpl mods st₂ := by
  unfold render_main
  dsimp only
  rw [h1, h4]
  rw [List.map_congr_left
    (f := render_suite_entry st₁.suite_data)
    (g := render_suite_entry st₂.suite_data)
    (fun s _ => by unfold render_suite_entry; rw [h2 s])]
  rw [List.map_congr_left
    (f := render_callbacks_entry st₁.callback_data)
    (g := render_callbacks_entry st₂.callback_data)
    (fun s _ => by unfold render_callbacks_entry; rw [h3 s])]
  rw [show render_event_overrides st₁.event_callbacks
      = render_event_overrides st₂.event_callbacks from
    congrArg (String.intercalate "\n") (overrideLines_congr h5)]

theorem processAll_callback_data (units : List (String × String))
    (hnd : (units.map Prod.fst).Nodup) :
    (processAll units).callback_data = units.filterMap cbPair := by
  rw [processAll_eq]
  dsimp only
  rw [foldl_dictInsert_eq cbPair cbPair_key units [] hnd (by simp)]
  simp

theorem processAll_suite_data (units : List (String × String))
    (hnd : (units.map Prod.fst).Nodup) :
    (processAll units).suite_data = units.filterMap sdPair := by
  rw [processAll_eq]
  dsimp only
  rw [foldl_dictInsert_eq sdPair sdPair_key units [] hnd (by simp)]
  simp

theorem processAll_declarations (units : List (String × String)) :
    (processAll units).declarations = (units.map unitDecls).flatten := by
  rw [processAll_eq]

theorem processAll_suite_names (units : List (String × String)) :
    (processAll units).suite_names = (units.map unitNames).flatten := by
  rw [processAll_eq]

theorem processAll_event_callbacks (units : List (String × String)) :
    (processAll units).event_callbacks = (units.map unitEvents).flatten := by
  rw [processAll_eq]

theorem filterMap_keys_nodup {α : Type} (g : String × String → Option (String × α))
    (hg : ∀ u p, g u = some p → p.1 = u.1) (units : List (String × String))
    (hnd : (units.map Prod.fst).Nodup) :
    ((units.filterMap g).map Prod.fst).Nodup :=
  (map_fst_filterMap_sublist g hg units).nodup hnd

/-! ### Claim theorems -/

/-- C5 (amended): for a fixed set of (canonical name, raw text) Source Unit
pairs whose canonical names are pairwise distinct, any two runs of the
generator that present the pairs in different orders (re-ordered file-system
traversal) produce byte-identical header and harness text artifacts.  (The
distinct-name hypothesis is forced by the counterexample: two pairs sharing
a canonical name make the surviving dict entry order-dependent.) -/
theorem clay_generator_deterministic_upto_traversal
    (tplH tplM mods : String) (us₁ us₂ : List (String × String))
    (hperm : us₁.Perm us₂) (hnd : (us₁.map Prod.fst).Nodup) :
    render_header tplH (processAll us₁) = render_header tplH (processAll us₂) ∧
    render_main tplM mods (processAll us₁) = render_main tplM mods (processAll us₂) := by
  have hnd₂ : (us₂.map Prod.fst).Nodup := (hperm.map Prod.fst).nodup hnd
  have hcb₁ := processAll_callback_data us₁ hnd
  have hcb₂ := processAll_callback_data us₂ hnd₂
  have hsd₁ := processAll_suite_data us₁ hnd
  have hsd₂ := processAll_suite_data us₂ hnd₂
  constructor
  · unfold render_header extern_declarations externLines
    rw [show sortStrings (processAll us₁).declarations
        = sortStrings (processAll us₂).declarations by
      rw [processAll_declarations, processAll_declarations]
      exact sortStrings_eq_of_perm (hperm.map unitDecls).flatten]
  · apply render_main_congr
    · rw [processAll_suite_names, processAll_suite_names]
      exact sortStrings_eq_of_perm (hperm.map unitNames).flatten
    · intro k
      rw [hsd₁, hsd₂]
      exact dictFind_eq_of_perm (hperm.filterMap sdPair)
        (filterMap_keys_nodup sdPair sdPair_key us₁ hnd) k
    · intro k
      rw [hcb₁, hcb₂]
      exact dictFind_eq_of_perm (hperm.filterMap cbPair)
        (filterMap_keys_nodup cbPair cbPair_key us₁ hnd) k
    · unfold callback_count
      rw [hcb₁, hcb₂]
      exact List.Perm.sum_eq ((hperm.filterMap cbPair).map fun p => p.2.length)
    · intro e
      rw [processAll_event_callbacks, processAll_event_callbacks]
      exact ((hperm.map unitEvents).flatten).mem_iff

/-- C5 witness: the determinism theorem applied to a concrete two-unit scan
presented in both traversal orders. -/
theorem clay_generator_deterministic_upto_traversal_witness :
    render_header "$\x7bextern_declarations\x7d"
        (processAll [("a", "void test_a__x(void) \x7b\x7d"), ("b", "void test_b__y(void) \x7b\x7d")]) =
      render_header "$\x7bextern_declarations\x7d"
        (processAll [("b", "void test_b__y(void) \x7b\x7d"), ("a", "void test_a__x(void) \x7b\x7d")]) ∧
    render_main "$\x7bclay_suites\x7d" ""
        (processAll [("a", "void test_a__x(void) \x7b\x7d"), ("b", "void test_b__y(void) \x7b\x7d")]) =
      render_main "$\x7bclay_suites\x7d" ""
        (processAll [("b", "void test_b__y(void) \x7b\x7d"), ("a", "void test_a__x(void) \x7b\x7d")]) :=
  clay_generator_deterministic_upto_traversal
    "$\x7bextern_declarations\x7d" "$\x7bclay_suites\x7d" ""
    [("a", "void test_a__x(void) \x7b\x7d"), ("b", "void test_b__y(void) \x7b\x7d")]
    [("b", "void test_b__y(void) \x7b\x7d"), ("a", "void test_a__x(void) \x7b\x7d")]
    (List.Perm.swap _ _ _) (by decide)

/-- C5 counterexample: two Source Unit pairs sharing the canonical name `s`
(reachable from a real tree, e.g. files `a_b.c` and `a/b.c` both canonicalize
to `a_b`): presenting the same set of pairs in the two traversal orders
yields different harness text — the claim, which quantifies over every fixed
set of pairs, fails without a distinct-name assumption. -/
theorem clay_generator_order_dependent_cex :
    [("s", "void test_s__a(void) \x7b\x7d\n"), ("s", "void test_s__b(void) \x7b\x7d\n")].Perm
      [("s", "void test_s__b(void) \x7b\x7d\n"), ("s", "void test_s__a(void) \x7b\x7d\n")] ∧
    render_main "$\x7bclay_callbacks\x7d" ""
        (processAll [("s", "void test_s__a(void) \x7b\x7d\n"), ("s", "void test_s__b(void) \x7b\x7d\n")]) ≠
      render_main "$\x7bclay_callbacks\x7d" ""
        (processAll [("s", "void test_s__b(void) \x7b\x7d\n"), ("s", "void test_s__a(void) \x7b\x7d\n")]) :=
  ⟨List.Perm.swap _ _ _, by decide⟩

/-- C2: the Source Unit canonically named `math_add` whose text holds exactly
the definitions `void test_math_add__simple(void) \x7b\x7d` and
`void test_math_add__overflow(void) \x7b\x7d` produces a Registry with one
Suite `math_add` holding 2 ordinary Declarations ordered
[`overflow`, `simple`], no initialize and no cleanup hook, and its rendered
suite descriptor displays `math::add` with test count 2. -/
theorem math_add_example_run :
    processAll [("math_add",
        "void test_math_add__simple(void) \x7b\x7d\nvoid test_math_add__overflow(void) \x7b\x7d")] =
      { declarations := ["void test_math_add__simple(void)", "void test_math_add__overflow(void)"],
        suite_names := ["math_add"],
        callback_data := [("math_add",
          [⟨"overflow", "void test_math_add__overflow(void)", "test_math_add__overflow"⟩,
           ⟨"simple", "void test_math_add__simple(void)", "test_math_add__simple"⟩])],
        suite_data := [("math_add",
          { name := "math_add", suiteInit := none, suiteCleanup := none, cb_count := 2 })],
        event_callbacks := [] } ∧
    render_suite { name := "math_add", suiteInit := none, suiteCleanup := none, cb_count := 2 } =
      "\x7b\n        \"math::add\",\n        \x7bNULL, NULL\x7d,\n        \x7bNULL, NULL\x7d,\n        _clay_cb_math_add, 2\n    \x7d" := by
  constructor
  · decide
  · decide

/-- C1 (amended): the header's extern block holds one `extern` line per
declaration-list entry (occurrences preserved: identical declaration texts
are NOT deduplicated), sorted lexicographically by code point — each line's
multiplicity equals the multiplicity of its declaration text in the scanned
declarations. -/
theorem extern_lines_sorted_with_multiplicity (ds : List String) :
    (sortStrings ds).Sorted strLe ∧
    (sortStrings ds).Perm ds ∧
    ∀ d : String, (externLines ds).count ("extern " ++ d ++ ";") = ds.count d := by
  haveI : IsTotal String strLe := ⟨strLe_total⟩
  haveI : IsTrans String strLe := ⟨fun _ _ _ h1 h2 => strLe_trans h1 h2⟩
  refine ⟨List.sorted_insertionSort strLe ds, List.perm_insertionSort strLe ds, ?_⟩
  intro d
  unfold externLines
  rw [List.count_map_of_injective (sortStrings ds)
    (fun decl => "extern " ++ decl ++ ";") (wrap_injective "extern " ";") d]
  exact (List.perm_insertionSort strLe ds).count_eq d

/-- C1 counterexample: a completed scan of one Source Unit that defines
`clay_on_init` twice (plus one ordinary test, so the scan succeeds)
contributes the same declaration text twice, and the rendered header
contains TWO identical extern lines for it — not exactly one per unique
declaration text as claimed. -/
theorem extern_header_duplicate_cex :
    externLines (processAll [("t",
        "void clay_on_init(void) \x7b\x7d\nvoid clay_on_init(void) \x7b\x7d\nvoid test_t__a(void) \x7b\x7d")]).declarations =
      ["extern void clay_on_init(void);", "extern void clay_on_init(void);",
       "extern void test_t__a(void);"] ∧
    (externLines (processAll [("t",
        "void clay_on_init(void) \x7b\x7d\nvoid clay_on_init(void) \x7b\x7d\nvoid test_t__a(void) \x7b\x7d")]).declarations).count
      "extern void clay_on_init(void);" = 2 ∧
    render_header "$\x7bextern_declarations\x7d" (processAll [("t",
        "void clay_on_init(void) \x7b\x7d\nvoid clay_on_init(void) \x7b\x7d\nvoid test_t__a(void) \x7b\x7d")]) =
      "extern void clay_on_init(void);\nextern void clay_on_init(void);\nextern void test_t__a(void);" ∧
    buildChecked "." [("t",
        "void clay_on_init(void) \x7b\x7d\nvoid clay_on_init(void) \x7b\x7d\nvoid test_t__a(void) \x7b\x7d")] =
      Except.ok (processAll [("t",
        "void clay_on_init(void) \x7b\x7d\nvoid clay_on_init(void) \x7b\x7d\nvoid test_t__a(void) \x7b\x7d")]) :=
  ⟨by decide, by decide, by decide, rfl⟩

/-- C3: a Source Unit whose scrubbed text yields zero ordinary Test
Declarations for its canonical suite name (every match is the reserved
`initialize` or `cleanup` short name) registers no Suite: the per-suite pass
(`_process_declarations`) leaves the whole Registry state unchanged, even
when initialize/cleanup declarations were matched. -/
theorem no_suite_without_ordinary_tests (st : BuilderState) (name c : String)
    (_hname : suiteNameOk name = true)
    (h : ∀ m ∈ findTests name (scrub c),
      m.short_name = "initialize" ∨ m.short_name = "cleanup") :
    processDeclarations st name (scrub c) = st := by
  apply processDeclarations_skip
  rw [show classifyDecls (findTests name (scrub c))
      = (findTests name (scrub c)).foldl classifyStep
        { iniHook := none, cleHook := none, callbacks := [] } from rfl]
  rw [classify_callbacks_of_hooks (findTests name (scrub c)) _ h]
  rfl

/-- C3 witness: a unit named `foo` defining only `test_foo__initialize` and
`test_foo__cleanup` leaves the (initial) Registry untouched. -/
theorem no_suite_without_ordinary_tests_witness :
    processDeclarations initialState "foo"
      (scrub "void test_foo__initialize(void) \x7b\x7d\nvoid test_foo__cleanup(void) \x7b\x7d") =
      initialState :=
  no_suite_without_ordinary_tests initialState "foo"
    "void test_foo__initialize(void) \x7b\x7d\nvoid test_foo__cleanup(void) \x7b\x7d"
    (by decide) (by decide)

/-- C4: when a Source Unit registers a suite (it has N ≥ 1 ordinary Test
Declarations), the stored callback table holds exactly those N ordinary
declarations (a permutation of them, one entry each), sorted ascending by
short name, with no `initialize`/`cleanup` entry; the suite record stores
count N, and the rendered callback array has exactly N entries. -/
theorem callback_array_matches_ordinary_tests (st : BuilderState) (name c : String)
    (_hname : suiteNameOk name = true)
    (hne : (classifyDecls (findTests name (scrub c))).callbacks.isEmpty = false) :
    dictFind? name (processDeclarations st name (scrub c)).callback_data =
      some (sortByShortName (classifyDecls (findTests name (scrub c))).callbacks) ∧
    dictFind? name (processDeclarations st name (scrub c)).suite_data =
      some { name := name,
             suiteInit := (classifyDecls (findTests name (scrub c))).iniHook,
             suiteCleanup := (classifyDecls (findTests name (scrub c))).cleHook,
             cb_count := (classifyDecls (findTests name (scrub c))).callbacks.length } ∧
    (sortByShortName (classifyDecls (findTests name (scrub c))).callbacks).Perm
      (classifyDecls (findTests name (scrub c))).callbacks ∧
    (sortByShortName (classifyDecls (findTests name (scrub c))).callbacks).length =
      (classifyDecls (findTests name (scrub c))).callbacks.length ∧
    (sortByShortName (classifyDecls (findTests name (scrub c))).callbacks).Sorted shortNameLe ∧
    (∀ cb ∈ sortByShortName (classifyDecls (findTests name (scrub c))).callbacks,
      cb.short_name ≠ "initialize" ∧ cb.short_name ≠ "cleanup") ∧
    (render_callback_entries
      (sortByShortName (classifyDecls (findTests name (scrub c))).callbacks)).length =
      (classifyDecls (findTests name (scrub c))).callbacks.length := by
  haveI : IsTotal TestDecl shortNameLe := ⟨shortNameLe_total⟩
  haveI : IsTrans TestDecl shortNameLe := ⟨fun _ _ _ h1 h2 => shortNameLe_trans h1 h2⟩
  have hperm : (sortByShortName (classifyDecls (findTests name (scrub c))).callbacks).Perm
      (classifyDecls (findTests name (scrub c))).callbacks :=
    List.perm_insertionSort shortNameLe _
  have hnoinit : ∀ cb ∈ sortByShortName (classifyDecls (findTests name (scrub c))).callbacks,
      cb.short_name ≠ "initialize" ∧ cb.short_name ≠ "cleanup" := by
    intro cb hcb
    exact classify_callbacks_not_hooks (findTests name (scrub c)) _
      (by intro x hx; simp at hx) cb (hperm.subset hcb)
  refine ⟨?_, ?_, hperm, hperm.length_eq, List.sorted_insertionSort shortNameLe _, hnoinit, ?_⟩
  · rw [processDeclarations_register st name (scrub c) hne]
    dsimp only
    rw [dictFind_insert]
    simp
  · rw [processDeclarations_register st name (scrub c) hne]
    dsimp only
    rw [dictFind_insert]
    simp
  · unfold render_callback_entries
    rw [List.filter_eq_self.mpr ?_]
    · exact (List.length_map _ _).trans hperm.length_eq
    · intro cb hcb
      rcases hnoinit cb hcb with ⟨h1, h2⟩
      simp [h1, h2]

theorem countNl_cons (c : Char) (l : List Char) :
    countNl (c :: l) = countNl l + (if c = nlChar then 1 else 0) := by
  simp [countNl, List.countP_cons]

theorem countNl_append (a b : List Char) : countNl (a ++ b) = countNl a + countNl b := by
  simp [countNl, List.countP_append]

theorem countNl_dropLineComment (l : List Char) :
    countNl (dropLineComment l) = countNl l := by
  induction l with
  | nil => rfl
  | cons c rest ih =>
    by_cases h : c = nlChar
    · simp [dropLineComment, h]
    · rw [show dropLineComment (c :: rest) = dropLineComment rest by
        simp [dropLineComment, h]]
      rw [ih, countNl_cons]
      simp [h]

theorem countNl_dropBlockComment (l : List Char) :
    ∀ r, dropBlockComment l = some r → countNl r ≤ countNl l := by
  induction l with
  | nil => intro r h; simp [dropBlockComment] at h
  | cons c l' ih =>
    intro r h
    cases l' with
    | nil => simp [dropBlockComment] at h
    | cons d rest =>
      by_cases hcd : c = '*' ∧ d = '/'
      · simp only [dropBlockComment, if_pos hcd, Option.some.injEq] at h
        subst h
        rw [countNl_cons, countNl_cons]
        omega
      · simp only [dropBlockComment, if_neg hcd] at h
        have := ih r h
        rw [countNl_cons] at this ⊢
        rw [countNl_cons]
        omega

theorem scanQuoted_append (q : Char) :
    ∀ (l kept r : List Char), scanQuoted q l = some (kept, r) → kept ++ r = l := by
  have main : ∀ (n : Nat) (l : List Char), l.length ≤ n →
      ∀ kept r, scanQuoted q l = some (kept, r) → kept ++ r = l := by
    intro n
    induction n with
    | zero =>
      intro l hl kept r h
      have : l = [] := List.eq_nil_of_length_eq_zero (Nat.le_zero.mp hl)
      subst this
      exact Option.noConfusion h
    | succ n ih =>
      intro l hl kept r h
      cases l with
      | nil => exact Option.noConfusion h
      | cons c rest =>
        by_cases hq : c = q
        · unfold scanQuoted at h
          rw [if_pos hq] at h
          simp only [Option.some.injEq, Prod.mk.injEq] at h
          obtain ⟨h1, h2⟩ := h
          rw [← h1, ← h2]
          rfl
        · by_cases hb : c = bsChar
          · cases rest with
            | nil =>
              rw [show scanQuoted q [c] = none by
                unfold scanQuoted; rw [if_neg hq, if_pos hb]] at h
              exact Option.noConfusion h
            | cons d rest2 =>
              cases hs : scanQuoted q rest2 with
              | none =>
                unfold scanQuoted at h
                rw [if_neg hq, if_pos hb] at h
                change (match scanQuoted q rest2 with
                  | some (kept, r) => some (c :: d :: kept, r)
                  | none => none) = some (kept, r) at h
                rw [hs] at h
                exact Option.noConfusion h
              | some pr =>
                obtain ⟨kept2, r2⟩ := pr
                unfold scanQuoted at h
                rw [if_neg hq, if_pos hb] at h
                change (match scanQuoted q rest2 with
                  | some (kept, r) => some (c :: d :: kept, r)
                  | none => none) = some (kept, r) at h
                rw [hs] at h
                simp only [Option.some.injEq, Prod.mk.injEq] at h
                obtain ⟨h1, h2⟩ := h
                have hlen : rest2.length ≤ n := by
                  simp only [List.length_cons] at hl
                  omega
                have hrec := ih rest2 hlen kept2 r2 hs
                rw [← h1, ← h2]
                simp only [List.cons_append]
                rw [hrec]
          · cases hs : scanQuoted q rest with
            | none =>
              rw [show scanQuoted q (c :: rest) = none by
                unfold scanQuoted; rw [if_neg hq, if_neg hb, hs]] at h
              exact Option.noConfusion h
            | some pr =>
              obtain ⟨kept2, r2⟩ := pr
              unfold scanQuoted at h
              rw [if_neg hq, if_neg hb, hs] at h
              simp only [Option.some.injEq, Prod.mk.injEq] at h
              obtain ⟨h1, h2⟩ := h
              have hlen : rest.length ≤ n := by
                simp only [List.length_cons] at hl
                omega
              have hrec := ih rest hlen kept2 r2 hs
              rw [← h1, ← h2]
              simp only [List.cons_append]
              rw [hrec]
  exact fun l => main l.length l (Nat.le_refl _)

theorem hasBlockStart_suffix_false {l₁ l₂ : List Char} (h : l₁.IsSuffix l₂)
    (h2 : hasBlockStart l₂ = false) : hasBlockStart l₁ = false := by
  obtain ⟨pre, rfl⟩ := h
  induction pre with
  | nil => exact h2
  | cons a pre ih =>
    rw [List.cons_append] at h2
    rw [show hasBlockStart (a :: (pre ++ l₁))
        = ((a = '/' && headIs '*' (pre ++ l₁)) || hasBlockStart (pre ++ l₁)) from rfl] at h2
    exact ih (Bool.or_eq_false_iff.mp h2).2

theorem dropLineComment_suffix (l : List Char) : (dropLineComment l).IsSuffix l := by
  induction l with
  | nil => exact List.suffix_rfl
  | cons c rest ih =>
    by_cases h : c = nlChar
    · simp [dropLineComment, h]
    · rw [show dropLineComment (c :: rest) = dropLineComment rest by
        simp [dropLineComment, h]]
      exact ih.trans (List.suffix_cons c rest)

theorem scrubAux_succ_line (fuel : Nat) (rest2 : List Char) :
    scrubAux (fuel + 1) ('/' :: '/' :: rest2) = scrubAux fuel (dropLineComment rest2) := rfl

theorem scrubAux_succ_block_some (fuel : Nat) (rest2 r : List Char)
    (h : dropBlockComment rest2 = some r) :
    scrubAux (fuel + 1) ('/' :: '*' :: rest2) = scrubAux fuel r := by
  show (match dropBlockComment rest2 with
    | some r => scrubAux fuel r
    | none => '/' :: scrubAux fuel ('*' :: rest2)) = scrubAux fuel r
  rw [h]

theorem scrubAux_succ_block_none (fuel : Nat) (rest2 : List Char)
    (h : dropBlockComment rest2 = none) :
    scrubAux (fuel + 1) ('/' :: '*' :: rest2) = '/' :: scrubAux fuel ('*' :: rest2) := by
  show (match dropBlockComment rest2 with
    | some r => scrubAux fuel r
    | none => '/' :: scrubAux fuel ('*' :: rest2)) = '/' :: scrubAux fuel ('*' :: rest2)
  rw [h]

theorem scrubAux_succ_slash_other (fuel : Nat) (d : Char) (rest2 : List Char)
    (hd : ¬ d = '/') (hd2 : ¬ d = '*') :
    scrubAux (fuel + 1) ('/' :: d :: rest2) = '/' :: scrubAux fuel (d :: rest2) := by
  show (if d = '/' then scrubAux fuel (dropLineComment rest2)
    else if d = '*' then
      (match dropBlockComment rest2 with
        | some r => scrubAux fuel r
        | none => '/' :: scrubAux fuel (d :: rest2))
    else '/' :: scrubAux fuel (d :: rest2)) = '/' :: scrubAux fuel (d :: rest2)
  rw [if_neg hd, if_neg hd2]

theorem scrubAux_succ_sq_some (fuel : Nat) (rest kept r : List Char)
    (hs : scanQuoted sqChar rest = some (kept, r)) :
    scrubAux (fuel + 1) (sqChar :: rest) = sqChar :: (kept ++ scrubAux fuel r) := by
  show (match scanQuoted sqChar rest with
    | some (kept, r) => sqChar :: (kept ++ scrubAux fuel r)
    | none => sqChar :: scrubAux fuel rest) = sqChar :: (kept ++ scrubAux fuel r)
  rw [hs]

theorem scrubAux_succ_sq_none (fuel : Nat) (rest : List Char)
    (hs : scanQuoted sqChar rest = none) :
    scrubAux (fuel + 1) (sqChar :: rest) = sqChar :: scrubAux fuel rest := by
  show (match scanQuoted sqChar rest with
    | some (kept, r) => sqChar :: (kept ++ scrubAux fuel r)
    | none => sqChar :: scrubAux fuel rest) = sqChar :: scrubAux fuel rest
  rw [hs]

theorem scrubAux_succ_dq_some (fuel : Nat) (rest kept r : List Char)
    (hs : scanQuoted dqChar rest = some (kept, r)) :
    scrubAux (fuel + 1) (dqChar :: rest) = dqChar :: (kept ++ scrubAux fuel r) := by
  show (match scanQuoted dqChar rest with
    | some (kept, r) => dqChar :: (kept ++ scrubAux fuel r)
    | none => dqChar :: scrubAux fuel rest) = dqChar :: (kept ++ scrubAux fuel r)
  rw [hs]

theorem scrubAux_succ_dq_none (fuel : Nat) (rest : List Char)
    (hs : scanQuoted dqChar rest = none) :
    scrubAux (fuel + 1) (dqChar :: rest) = dqChar :: scrubAux fuel rest := by
  show (match scanQuoted dqChar rest with
    | some (kept, r) => dqChar :: (kept ++ scrubAux fuel r)
    | none => dqChar :: scrubAux fuel rest) = dqChar :: scrubAux fuel rest
  rw [hs]

theorem scrubAux_succ_other (fuel : Nat) (c : Char) (rest : List Char)
    (h1 : ¬ c = '/') (h2 : ¬ c = sqChar) (h3 : ¬ c = dqChar) :
    scrubAux (fuel + 1) (c :: rest) = c :: scrubAux fuel rest := by
  show (if c = '/' then
      match rest with
      | [] => [c]
      | d :: rest2 =>
        if d = '/' then scrubAux fuel (dropLineComment rest2)
        else if d = '*' then
          match dropBlockComment rest2 with
          | some r => scrubAux fuel r
          | none => c :: scrubAux fuel rest
        else c :: scrubAux fuel rest
    else if c = sqChar then
      match scanQuoted sqChar rest with
      | some (kept, r) => c :: (kept ++ scrubAux fuel r)
      | none => c :: scrubAux fuel rest
    else if c = dqChar then
      match scanQuoted dqChar rest with
      | some (kept, r) => c :: (kept ++ scrubAux fuel r)
      | none => c :: scrubAux fuel rest
    else c :: scrubAux fuel rest) = c :: scrubAux fuel rest
  rw [if_neg h1, if_neg h2, if_neg h3]

theorem scrubAux_countNl_le : ∀ (fuel : Nat) (l : List Char),
    countNl (scrubAux fuel l) ≤ countNl l := by
  intro fuel
  induction fuel with
  | zero => intro l; exact Nat.le_refl _
  | succ fuel ih =>
    intro l
    cases l with
    | nil => exact Nat.le_refl _
    | cons c rest =>
      by_cases hc : c = '/'
      · subst hc
        cases rest with
        | nil => exact Nat.le_refl _
        | cons d rest2 =>
          by_cases hd : d = '/'
          · subst hd
            rw [scrubAux_succ_line fuel rest2]
            calc countNl (scrubAux fuel (dropLineComment rest2))
                ≤ countNl (dropLineComment rest2) := ih _
              _ = countNl rest2 := countNl_dropLineComment rest2
              _ ≤ countNl ('/' :: '/' :: rest2) := by
                  rw [countNl_cons, countNl_cons]; omega
          · by_cases hd2 : d = '*'
            · subst hd2
              cases hb : dropBlockComment rest2 with
              | some r =>
                rw [scrubAux_succ_block_some fuel rest2 r hb]
                calc countNl (scrubAux fuel r) ≤ countNl r := ih r
                  _ ≤ countNl rest2 := countNl_dropBlockComment rest2 r hb
                  _ ≤ countNl ('/' :: '*' :: rest2) := by
                      rw [countNl_cons, countNl_cons]; omega
              | none =>
                rw [scrubAux_succ_block_none fuel rest2 hb]
                rw [countNl_cons, countNl_cons]
                exact Nat.add_le_add_right (ih ('*' :: rest2)) _
            · rw [scrubAux_succ_slash_other fuel d rest2 hd hd2]
              rw [countNl_cons, countNl_cons]
              exact Nat.add_le_add_right (ih (d :: rest2)) _
      · by_cases hq : c = sqChar
        · subst hq
          cases hs : scanQuoted sqChar rest with
          | some pr =>
            obtain ⟨kept, r⟩ := pr
            rw [scrubAux_succ_sq_some fuel rest kept r hs]
            have happ : kept ++ r = rest := scanQuoted_append sqChar rest kept r hs
            rw [countNl_cons, countNl_cons, countNl_append, ← happ, countNl_append]
            have := ih r
            omega
          | none =>
            rw [scrubAux_succ_sq_none fuel rest hs]
            rw [countNl_cons, countNl_cons]
            exact Nat.add_le_add_right (ih rest) _
        · by_cases hq2 : c = dqChar
          · subst hq2
            cases hs : scanQuoted dqChar rest with
            | some pr =>
              obtain ⟨kept, r⟩ := pr
              rw [scrubAux_succ_dq_some fuel rest kept r hs]
              have happ : kept ++ r = rest := scanQuoted_append dqChar rest kept r hs
              rw [countNl_cons, countNl_cons, countNl_append, ← happ, countNl_append]
              have := ih r
              omega
            | none =>
              rw [scrubAux_succ_dq_none fuel rest hs]
              rw [countNl_cons, countNl_cons]
              exact Nat.add_le_add_right (ih rest) _
          · rw [scrubAux_succ_other fuel c rest hc hq hq2]
            rw [countNl_cons, countNl_cons]
            exact Nat.add_le_add_right (ih rest) _

theorem scrubAux_countNl_eq : ∀ (fuel : Nat) (l : List Char),
    hasBlockStart l = false → countNl (scrubAux fuel l) = countNl l := by
  intro fuel
  induction fuel with
  | zero => intro l _; rfl
  | succ fuel ih =>
    intro l hbs
    cases l with
    | nil => rfl
    | cons c rest =>
      have hrest : hasBlockStart rest = false :=
        hasBlockStart_suffix_false (List.suffix_cons c rest) hbs
      by_cases hc : c = '/'
      · subst hc
        cases rest with
        | nil => rfl
        | cons d rest2 =>
          by_cases hd : d = '/'
          · subst hd
            rw [scrubAux_succ_line fuel rest2]
            have hs2 : hasBlockStart rest2 = false :=
              hasBlockStart_suffix_false (List.suffix_cons '/' rest2) hrest
            rw [ih _ (hasBlockStart_suffix_false (dropLineComment_suffix rest2) hs2)]
            rw [countNl_dropLineComment rest2, countNl_cons, countNl_cons]
            simp [show ¬ ('/' : Char) = nlChar by decide]
          · by_cases hd2 : d = '*'
            · subst hd2
              exfalso
              rw [show hasBlockStart ('/' :: '*' :: rest2)
                  = (('/' = '/' && headIs '*' ('*' :: rest2)) || hasBlockStart ('*' :: rest2))
                from rfl] at hbs
              simp [headIs] at hbs
            · rw [scrubAux_succ_slash_other fuel d rest2 hd hd2]
              rw [countNl_cons, countNl_cons, ih _ hrest]
      · by_cases hq : c = sqChar
        · subst hq
          cases hs : scanQuoted sqChar rest with
          | some pr =>
            obtain ⟨kept, r⟩ := pr
            rw [scrubAux_succ_sq_some fuel rest kept r hs]
            have happ : kept ++ r = rest := scanQuoted_append sqChar rest kept r hs
            have hr : hasBlockStart r = false :=
              hasBlockStart_suffix_false ⟨kept, happ⟩ hrest
            rw [countNl_cons, countNl_cons, countNl_append, ← happ, countNl_append, ih _ hr]
          | none =>
            rw [scrubAux_succ_sq_none fuel rest hs]
            rw [countNl_cons, countNl_cons, ih _ hrest]
        · by_cases hq2 : c = dqChar
          · subst hq2
            cases hs : scanQuoted dqChar rest with
            | some pr =>
              obtain ⟨kept, r⟩ := pr
              rw [scrubAux_succ_dq_some fuel rest kept r hs]
              have happ : kept ++ r = rest := scanQuoted_append dqChar rest kept r hs
              have hr : hasBlockStart r = false :=
                hasBlockStart_suffix_false ⟨kept, happ⟩ hrest
              rw [countNl_cons, countNl_cons, countNl_append, ← happ, countNl_append, ih _ hr]
            | none =>
              rw [scrubAux_succ_dq_none fuel rest hs]
              rw [countNl_cons, countNl_cons, ih _ hrest]
          · rw [scrubAux_succ_other fuel c rest hc hq hq2]
            rw [countNl_cons, countNl_cons, ih _ hrest]

/-- C6 (code bug): when the scan finds zero suites the build does fail
fatally before any write, but the raised error is a Python `NameError`
about the undefined variable `folder_name` (the message interpolation
references a name that does not exist), not the intended `RuntimeError`
naming the scanned root: the outcome is identical for every root path, so
the message cannot name it.  With at least one Suite no error is raised. -/
theorem no_suites_error_behavior : ∀ (p q : String) (units : List (String × String)),
    buildChecked p units = buildChecked q units ∧
    buildChecked p [] = Except.error (BuildError.nameError "folder_name") ∧
    (buildChecked p units = Except.error (BuildError.nameError "folder_name") ↔
      (processAll units).suite_data.isEmpty = true) := by
  intro p q units
  refine ⟨rfl, rfl, ?_⟩
  unfold buildChecked
  by_cases h : (processAll units).suite_data.isEmpty
  · simp [h]
  · simp [h]

/-- C7 (amended): the spec's own examples hold: a line
`// void test_foo__bar(void) \x7b` in a unit named `foo` yields no
Declaration (the comment is scrubbed away), and a single-line string
literal containing the same text yields none (literals are kept verbatim
but matching is anchored at line starts, and the literal's text sits
mid-line); only a literal containing a raw newline directly before the
text can produce a match — see the counterexample. -/
theorem comment_and_literal_do_not_match :
    scrub "// void test_foo__bar(void) \x7b\nint x;" = "\nint x;" ∧
    findTests "foo" (scrub "// void test_foo__bar(void) \x7b\nint x;") = [] ∧
    findEvents (scrub "// void clay_on_init(void) \x7b\nint x;") = [] ∧
    scrub "char *s = \"void test_foo__bar(void) \x7b\";\n" =
      "char *s = \"void test_foo__bar(void) \x7b\";\n" ∧
    findTests "foo" (scrub "char *s = \"void test_foo__bar(void) \x7b\";\n") = [] :=
  ⟨by decide, by decide, by decide, by decide, by decide⟩

/-- C7 counterexample: a unit named `x` whose whole text is one quoted
string literal containing a raw newline followed by
`void test_x__y(void) \x7b`: the scrubber keeps the literal verbatim (it is
not a comment), the text after the raw newline sits at a line start, and the
line-anchored matcher produces a Declaration from inside the literal —
registering a suite — contradicting the claim that text inside a string
literal never matches. -/
theorem string_literal_newline_match_cex :
    scrub "\"\nvoid test_x__y(void) \x7b\"" = "\"\nvoid test_x__y(void) \x7b\"" ∧
    findTests "x" (scrub "\"\nvoid test_x__y(void) \x7b\"") =
      [⟨"y", "void test_x__y(void)", "test_x__y"⟩] ∧
    (processTestFile initialState "x" "\"\nvoid test_x__y(void) \x7b\"").suite_names = ["x"] :=
  ⟨by decide, by decide, by decide⟩

/-- C8 (amended): the Scrubber is a pure function of its input text; it
never increases the newline count, and it preserves the newline count (and
hence line structure) whenever the text contains no `/*` block-comment
opener — but removing a block comment that spans several lines deletes the
newlines inside it, so a multi-line block comment DOES change the line
count (see the counterexample). -/
theorem scrub_newline_count (s : String) :
    countNl (scrub s).data ≤ countNl s.data ∧
    (hasBlockStart s.data = false → countNl (scrub s).data = countNl s.data) :=
  ⟨scrubAux_countNl_le s.data.length s.data,
   fun h => scrubAux_countNl_eq s.data.length s.data h⟩

/-- C8 witness: the newline-count preservation applied to a concrete text
with a line comment and a string literal but no block comment. -/
theorem scrub_newline_count_witness :
    hasBlockStart "int x; // c\ns = \"a\nb\";\n".data = false ∧
    countNl (scrub "int x; // c\ns = \"a\nb\";\n").data =
      countNl "int x; // c\ns = \"a\nb\";\n".data :=
  ⟨by decide, (scrub_newline_count "int x; // c\ns = \"a\nb\";\n").2 (by decide)⟩

/-- C8 counterexample: removing the block comment in `a/*\n*/b` yields `ab`
— the input has two lines (one newline), the output one line (no newline),
so line positions are not preserved and a multi-line comment removal does
change the line count. -/
theorem scrubber_line_collapse_cex :
    scrub "a/*\n*/b" = "ab" ∧
    countNl "a/*\n*/b".data = 1 ∧
    countNl (scrub "a/*\n*/b").data = 0 :=
  ⟨by decide, by decide, by decide⟩

/-- C9: for every lifecycle event in \x7binit, shutdown, test, suite\x7d, the
harness gets a no-op macro for the event iff no `clay_on_<event>` was
matched in any Source Unit; and the event-processing pass keeps exactly the
matches whose event lies in the enumeration — a matched `clay_on_<x>` with
`x` outside it is ignored entirely (it marks no override and contributes no
declaration). -/
theorem event_overrides_iff (units : List (String × String)) (e : String)
    (he : e ∈ CLAY_EVENTS) :
    ((nopLine e ∈ overrideLines (processAll units).event_callbacks) ↔
      ¬ ∃ u ∈ units, ∃ d : String, (d, e) ∈ findEvents (scrub u.2)) ∧
    (∀ x : String, x ∉ CLAY_EVENTS → x ∉ (processAll units).event_callbacks) ∧
    (∀ (st : BuilderState) (c : String),
      (processEvents st c).event_callbacks =
        st.event_callbacks ++ (eventContrib c).map Prod.snd ∧
      (processEvents st c).declarations =
        st.declarations ++ (eventContrib c).map Prod.fst) := by
  have hmemec : ∀ x : String, x ∈ (processAll units).event_callbacks ↔
      ∃ u ∈ units, ∃ d : String, ((d, x) ∈ findEvents (scrub u.2) ∧ x ∈ CLAY_EVENTS) := by
    intro x
    rw [processAll_event_callbacks, List.mem_flatten]
    constructor
    · rintro ⟨l, hl, hel⟩
      obtain ⟨u, hu, rfl⟩ := List.mem_map.mp hl
      obtain ⟨m, hm, hme⟩ := List.mem_map.mp hel
      obtain ⟨d0, e0⟩ := m
      obtain ⟨hmf, hmc⟩ := List.mem_filter.mp hm
      subst hme
      exact ⟨u, hu, d0, hmf, by simpa using hmc⟩
    · rintro ⟨u, hu, d, hd, hx⟩
      refine ⟨unitEvents u, List.mem_map_of_mem unitEvents hu, ?_⟩
      refine List.mem_map.mpr ⟨(d, x), ?_, rfl⟩
      exact List.mem_filter.mpr ⟨hd, by simpa using hx⟩
  refine ⟨?_, ?_, ?_⟩
  · have h1 : nopLine e ∈ overrideLines (processAll units).event_callbacks ↔
        e ∈ CLAY_EVENTS ∧ e ∉ (processAll units).event_callbacks := by
      unfold overrideLines
      constructor
      · intro hm
        obtain ⟨e', he', heq⟩ := List.mem_map.mp hm
        have he'e : e' = e := wrap_injective "#define clay_on_" "() /* nop */" heq
        subst he'e
        have hf := List.mem_filter.mp he'
        exact ⟨hf.1, by simpa using hf.2⟩
      · rintro ⟨hmem, hnot⟩
        exact List.mem_map.mpr ⟨e, List.mem_filter.mpr ⟨hmem, by simpa using hnot⟩, rfl⟩
    rw [h1, hmemec e]
    simp [he]
  · intro x hx hmem
    obtain ⟨u, hu, d, hd, hc⟩ := (hmemec x).mp hmem
    exact hx hc
  · intro st c
    rw [processEvents_eq]
    exact ⟨rfl, rfl⟩

/-- C9 witness: the no-op/override equivalence applied to a concrete
one-unit scan that overrides `init` (so `init` gets no no-op macro while
e.g. the matched-nowhere `suite` event keeps one). -/
theorem event_overrides_iff_witness :
    ((nopLine "init" ∈ overrideLines
        (processAll [("t", "void clay_on_init(void) \x7b\x7d\nvoid test_t__a(void) \x7b\x7d")]).event_callbacks) ↔
      ¬ ∃ u ∈ [("t", "void clay_on_init(void) \x7b\x7d\nvoid test_t__a(void) \x7b\x7d")],
        ∃ d : String, (d, "init") ∈ findEvents (scrub u.2)) :=
  (event_overrides_iff [("t", "void clay_on_init(void) \x7b\x7d\nvoid test_t__a(void) \x7b\x7d")]
    "init" (by decide)).1

theorem dictInsert_parallel :
    ∀ (d₁ : List (String × List TestDecl)) (d₂ : List (String × Suite)),
    d₁.map (fun p => (p.1, p.2.length)) = d₂.map (fun p => (p.1, p.2.cb_count)) →
    ∀ (k : String) (cbs : List TestDecl) (su : Suite), cbs.length = su.cb_count →
    (dictInsert k cbs d₁).map (fun p => (p.1, p.2.length)) =
      (dictInsert k su d₂).map (fun p => (p.1, p.2.cb_count)) := by
  intro d₁
  induction d₁ with
  | nil =>
    intro d₂ h k cbs su hcs
    cases d₂ with
    | nil => simp [dictInsert, hcs]
    | cons q l => simp at h
  | cons p l ih =>
    intro d₂ h k cbs su hcs
    cases d₂ with
    | nil => simp at h
    | cons q l2 =>
      obtain ⟨k1, v1⟩ := p
      obtain ⟨k2, v2⟩ := q
      simp only [List.map_cons, List.cons.injEq, Prod.mk.injEq] at h
      obtain ⟨⟨hk, hv⟩, hrest⟩ := h
      subst hk
      by_cases hkk : k1 = k
      · simp [dictInsert, hkk, hcs, hv, hrest]
      · simp only [dictInsert, if_neg hkk, List.map_cons]
        rw [ih l2 hrest k cbs su hcs]
        simp [hv]

theorem cb_suite_parallel (units : List (String × String)) :
    ∀ st : BuilderState,
      st.callback_data.map (fun p => (p.1, p.2.length)) =
        st.suite_data.map (fun p => (p.1, p.2.cb_count)) →
      (∀ p ∈ st.callback_data, ∀ cb ∈ p.2,
        cb.short_name ≠ "initialize" ∧ cb.short_name ≠ "cleanup") →
      (units.foldl (fun st u => processTestFile st u.1 u.2) st).callback_data.map
          (fun p => (p.1, p.2.length)) =
        (units.foldl (fun st u => processTestFile st u.1 u.2) st).suite_data.map
          (fun p => (p.1, p.2.cb_count)) ∧
      ∀ p ∈ (units.foldl (fun st u => processTestFile st u.1 u.2) st).callback_data,
        ∀ cb ∈ p.2, cb.short_name ≠ "initialize" ∧ cb.short_name ≠ "cleanup" := by
  induction units with
  | nil => intro st h1 h2; exact ⟨h1, h2⟩
  | cons u rest ih =>
    intro st h1 h2
    rw [List.foldl_cons]
    by_cases hr : registersUnit u
    · have hcb : cbPair u = some (u.1, unitCbs u) := by simp [cbPair, hr]
      have hsd : sdPair u = some (u.1, unitSuite u) := by simp [sdPair, hr]
      have hlen : (unitCbs u).length = (unitSuite u).cb_count :=
        (List.perm_insertionSort shortNameLe (unitClassified u).callbacks).length_eq
      have hnohooks : ∀ cb ∈ unitCbs u,
          cb.short_name ≠ "initialize" ∧ cb.short_name ≠ "cleanup" := by
        intro cb hcbm
        have hperm := List.perm_insertionSort shortNameLe (unitClassified u).callbacks
        exact classify_callbacks_not_hooks (findTests u.1 (scrub u.2)) _
          (by intro x hx; simp at hx) cb (hperm.subset hcbm)
      apply ih
      · rw [processTestFile_eq]
        dsimp only
        unfold dictStep
        rw [hcb, hsd]
        exact dictInsert_parallel st.callback_data st.suite_data h1 u.1
          (unitCbs u) (unitSuite u) hlen
      · rw [processTestFile_eq]
        dsimp only
        unfold dictStep
        rw [hcb]
        intro p hp cb hcbm
        rcases mem_dictInsert p u.1 (unitCbs u) st.callback_data hp with hpv | hpd
        · rw [hpv] at hcbm
          exact hnohooks cb hcbm
        · exact h2 p hpd cb hcbm
    · have hcb : cbPair u = none := by simp [cbPair, hr]
      have hsd : sdPair u = none := by simp [sdPair, hr]
      apply ih
      · rw [processTestFile_eq]
        dsimp only
        unfold dictStep
        rw [hcb, hsd]
        exact h1
      · rw [processTestFile_eq]
        dsimp only
        unfold dictStep
        rw [hcb]
        exact h2

/-- C10: the aggregate callback count substituted into the harness template
equals the sum of the registered suites' stored test counts, which count
exactly the ordinary Test Declarations: each suite's callback-table length
equals its stored `cb_count`, and no table entry is an initialize/cleanup
hook (event callbacks are never stored in `callback_data` at all). -/
theorem callback_count_is_total_ordinary (units : List (String × String)) :
    callback_count (processAll units) =
      ((processAll units).suite_data.map fun p => p.2.cb_count).sum ∧
    (processAll units).callback_data.map (fun p => (p.1, p.2.length)) =
      (processAll units).suite_data.map (fun p => (p.1, p.2.cb_count)) ∧
    ∀ p ∈ (processAll units).callback_data, ∀ cb ∈ p.2,
      cb.short_name ≠ "initialize" ∧ cb.short_name ≠ "cleanup" := by
  have h := cb_suite_parallel units initialState rfl
    (by intro p hp; simp [initialState] at hp)
  have hpa : processAll units
      = units.foldl (fun st u => processTestFile st u.1 u.2) initialState := rfl
  rw [hpa]
  refine ⟨?_, h.1, h.2⟩
  unfold callback_count
  have h2 := congrArg (fun l => (l.map Prod.snd).sum) h.1
  simp only [List.map_map, Function.comp] at h2
  exact h2

/-- C10 witness: the aggregate-count identity and hook exclusion applied to
a concrete scan with two ordinary tests and an `initialize` hook. -/
theorem callback_count_is_total_ordinary_witness :
    callback_count (processAll [("t",
        "void test_t__b(void) \x7b\x7d\nvoid test_t__a(void) \x7b\x7d\nvoid test_t__initialize(void) \x7b\x7d")]) =
      ((processAll [("t",
        "void test_t__b(void) \x7b\x7d\nvoid test_t__a(void) \x7b\x7d\nvoid test_t__initialize(void) \x7b\x7d")]).suite_data.map
        fun p => p.2.cb_count).sum ∧
    ((⟨"a", "void test_t__a(void)", "test_t__a"⟩ : TestDecl).short_name ≠ "initialize" ∧
      (⟨"a", "void test_t__a(void)", "test_t__a"⟩ : TestDecl).short_name ≠ "cleanup") :=
  ⟨(callback_count_is_total_ordinary [("t",
      "void test_t__b(void) \x7b\x7d\nvoid test_t__a(void) \x7b\x7d\nvoid test_t__initialize(void) \x7b\x7d")]).1,
   (callback_count_is_total_ordinary [("t",
      "void test_t__b(void) \x7b\x7d\nvoid test_t__a(void) \x7b\x7d\nvoid test_t__initialize(void) \x7b\x7d")]).2.2
     ("t", [⟨"a", "void test_t__a(void)", "test_t__a"⟩, ⟨"b", "void test_t__b(void)", "test_t__b"⟩])
     (by decide)
     ⟨"a", "void test_t__a(void)", "test_t__a"⟩
     (by decide)⟩

/-- C4 witness: the callback-array theorem applied to a concrete scrubbed
unit with two ordinary tests (matched in the order b, a) and an
`initialize` hook. -/
theorem callback_array_matches_ordinary_tests_witness :
    dictFind? "t" (processDeclarations initialState "t" (scrub
        "void test_t__b(void) \x7b\x7d\nvoid test_t__a(void) \x7b\x7d\nvoid test_t__initialize(void) \x7b\x7d")).callback_data =
      some (sortByShortName (classifyDecls (findTests "t" (scrub
        "void test_t__b(void) \x7b\x7d\nvoid test_t__a(void) \x7b\x7d\nvoid test_t__initialize(void) \x7b\x7d"))).callbacks) :=
  (callback_array_matches_ordinary_tests initialState "t"
    "void test_t__b(void) \x7b\x7d\nvoid test_t__a(void) \x7b\x7d\nvoid test_t__initialize(void) \x7b\x7d"
    (by decide) (by decide)).1
